import Mathlib

/-!
Verification of the thermoelectric solver core of `new_tring.py`.

This file gives a shallow embedding, over the exact rationals, of the
numerical core of the repository:

* `create_interpolators` (piecewise-linear property lookup with flat
  clamping, sorting the samples by temperature first),
* `calculate_temperature_distribution` (the iterative finite-difference
  solver with its singular-solve and non-finite-solution fallbacks),
* `calculate_efficiency` (heat-flux reconstruction, trapezoidal integrals,
  efficiency clamping and power density),
* the per-current device aggregation of `calculate_device_performance`.

Modelling conventions:

* Python floats are embedded as `ℚ`; decimal literals of the source
  (`0.95`, `1.1`, `0.01`, `0.9`) become the corresponding exact rationals.
* `np.linalg.solve` raises `LinAlgError` exactly when the matrix is
  singular and otherwise returns the unique solution of the system; its
  embedding `npSolve` returns `none` when the determinant vanishes and
  otherwise the unique solution, written via Cramer's rule.
* The test `np.any(np.isnan(T_new)) or np.any(np.isinf(T_new))` at line 386
  of the source has no counterpart in exact arithmetic (a rational vector
  is never NaN or Inf); the solver embedding therefore takes this
  float-validity test as an explicit Boolean parameter `isBad` on the
  solved vector, keeping the surrounding control flow exactly as in the
  source.
* `np.argsort` composed with array reindexing is embedded as an insertion
  sort on the rows keyed by temperature; on tables with pairwise distinct
  temperatures (the only ones the theorems below are about) every sorting
  algorithm produces the same reordering.
* Material property interpolators are grouped in a `Props` record of three
  functions, which is what `self.interpolators[key]` provides per call.
-/

/-- Temperature clamp `np.clip(T[i], 300, 700)` used before every property
lookup (solver line 352, efficiency line 468). -/
def clip_temperature (t : ℚ) : ℚ := min (max t 300) 700

/-- The three property interpolators of one material, as produced by
`create_interpolators`: Seebeck coefficient, electrical resistivity and
thermal conductivity, each a function of temperature. -/
structure Props where
  seebeck : ℚ → ℚ
  resistivity : ℚ → ℚ
  thermal_cond : ℚ → ℚ

/-- Interior recursion of the piecewise-linear interpolant: `p` is the
last sample at or below the query (after the head test), `rest` the
remaining samples in ascending temperature order. -/
def interpSegments : (ℚ × ℚ) → List (ℚ × ℚ) → ℚ → ℚ
  | p, [], _ => p.2
  | p, q :: rest, t =>
    if t ≤ q.1 then p.2 + (q.2 - p.2) * (t - p.1) / (q.1 - p.1)
    else interpSegments q rest t

/-- Embedding of `scipy.interpolate.interp1d(temps, vals, kind='linear',
bounds_error=False, fill_value=(vals[0], vals[-1]))` applied to a list of
`(temperature, value)` samples in ascending temperature order: linear
interpolation inside the sampled range, the boundary sample value outside
it (flat clamping), never a failure. -/
def interpLookup : List (ℚ × ℚ) → ℚ → ℚ
  | [], _ => 0
  | p :: rest, t => if t ≤ p.1 then p.2 else interpSegments p rest t

/-- One raw material-table row: (temperature, seebeck, resistivity,
thermal conductivity), the four parallel arrays of the source zipped. -/
abbrev TableRow := ℚ × ℚ × ℚ × ℚ

/-- Sorting of the four parallel property arrays by temperature
(`sort_idx = np.argsort(temps)` and the four reindexings, source lines
287-291), embedded as a sort of the zipped rows keyed by temperature. -/
def sortRows (rows : List TableRow) : List TableRow :=
  List.insertionSort (fun a b => a.1 ≤ b.1) rows

/-- Embedding of `ThermoelectricCalculator.create_interpolators` (source
lines 274-311): sort the table rows by temperature, then build the three
boundary-clamped piecewise-linear interpolators. -/
def create_interpolators (rows : List TableRow) : Props :=
  { seebeck := interpLookup ((sortRows rows).map fun r => (r.1, r.2.1))
    resistivity := interpLookup ((sortRows rows).map fun r => (r.1, r.2.2.1))
    thermal_cond := interpLookup ((sortRows rows).map fun r => (r.1, r.2.2.2)) }

/-- Embedding of `np.linalg.solve` over exact arithmetic: `none` exactly
when the matrix is singular (the `LinAlgError` branch), otherwise the
unique solution of `A x = b`, expressed by Cramer's rule. -/
def npSolve {n : ℕ} (A : Matrix (Fin n) (Fin n) ℚ) (b : Fin n → ℚ) :
    Option (Fin n → ℚ) :=
  if A.det = 0 then none else some (fun i => A.det⁻¹ * A.cramer b i)

/-- Unit conversion of the applied current density used by the temperature
solver: `J = current_density * 100` (source line 342). -/
def solver_current_to_SI (current_density : ℚ) : ℚ := current_density * 100

/-- Unit conversion of the applied current density used by the efficiency
calculator: `J = current_density * 10000` (source line 474). -/
def efficiency_current_to_SI (current_density : ℚ) : ℚ :=
  current_density * 10000

/-- Node access on a length-`n` field with out-of-range junk, used to read
the per-node coefficient arrays at natural-number indices. -/
def node_get {n : ℕ} (T : Fin n → ℚ) (m : ℕ) : ℚ :=
  if h : m < n then T ⟨m, h⟩ else 0

/-- Coefficient `c1 = J * seebeck / thermal_cond` at a node (source
lines 358, 477). `Tf` is the temperature field by node index. -/
def c1_at (P : Props) (J : ℚ) (Tf : ℕ → ℚ) (m : ℕ) : ℚ :=
  J * P.seebeck (clip_temperature (Tf m)) /
    P.thermal_cond (clip_temperature (Tf m))

/-- Coefficient `c2 = -1 / thermal_cond` at a node (source lines 359, 478). -/
def c2_at (P : Props) (Tf : ℕ → ℚ) (m : ℕ) : ℚ :=
  -1 / P.thermal_cond (clip_temperature (Tf m))

/-- Coefficient `c3 = seebeck² * J² / thermal_cond` at a node (source
lines 360, 479). -/
def c3_at (P : Props) (J : ℚ) (Tf : ℕ → ℚ) (m : ℕ) : ℚ :=
  P.seebeck (clip_temperature (Tf m)) ^ 2 * J ^ 2 /
    P.thermal_cond (clip_temperature (Tf m))

/-- Coefficient `c4 = -J * seebeck / thermal_cond` at a node (source
lines 361, 480). -/
def c4_at (P : Props) (J : ℚ) (Tf : ℕ → ℚ) (m : ℕ) : ℚ :=
  -(J * P.seebeck (clip_temperature (Tf m))) /
    P.thermal_cond (clip_temperature (Tf m))

/-- Coefficient `c5 = resistivity * J²` at a node (source lines 362, 481). -/
def c5_at (P : Props) (J : ℚ) (Tf : ℕ → ℚ) (m : ℕ) : ℚ :=
  P.resistivity (clip_temperature (Tf m)) * J ^ 2

/-- Grid spacing `dx = L / (n_points - 1)` with normalized length `L = 1`
(source line 335). -/
def grid_dx (n : ℕ) : ℚ := 1 / ((n : ℚ) - 1)

/-- Initial linear temperature ramp `np.linspace(Tc, Th, n_points)`
(source line 337), also the fallback field of every degraded exit. -/
def lin_ramp (Tc Th : ℚ) (n : ℕ) : Fin n → ℚ :=
  fun i => Tc + (Th - Tc) * (i : ℚ) / ((n : ℚ) - 1)

/-- Node positions `np.linspace(0, 1, n_points)` (source line 336). -/
def node_positions (n : ℕ) : Fin n → ℚ :=
  fun i => (i : ℚ) / ((n : ℚ) - 1)

/-- System matrix of one solver iteration (source lines 365-378): row 0
and row `n-1` are Dirichlet rows, each interior row `i` carries the
three-point stencil with coefficients evaluated at nodes `i` and `i+1`
from the current temperature field `T`. -/
def system_matrix {n : ℕ} (P : Props) (J : ℚ) (T : Fin n → ℚ) :
    Matrix (Fin n) (Fin n) ℚ :=
  fun i j =>
    if (i : ℕ) = n - 1 then (if j = i then 1 else 0)
    else if (i : ℕ) = 0 then (if (j : ℕ) = 0 then 1 else 0)
    else if (j : ℕ) + 1 = (i : ℕ) then
      1 / (c2_at P (node_get T) i * grid_dx n)
    else if (j : ℕ) = (i : ℕ) then
      c4_at P J (node_get T) ((i : ℕ) + 1) / c2_at P (node_get T) ((i : ℕ) + 1) -
        1 / (c2_at P (node_get T) ((i : ℕ) + 1) * grid_dx n) -
        (1 - c1_at P J (node_get T) i * grid_dx n) /
          (c2_at P (node_get T) i * grid_dx n)
    else if (j : ℕ) = (i : ℕ) + 1 then
      (1 - c1_at P J (node_get T) ((i : ℕ) + 1) * grid_dx n) /
          (c2_at P (node_get T) ((i : ℕ) + 1) * grid_dx n) -
        c3_at P J (node_get T) ((i : ℕ) + 1) * grid_dx n -
        (1 - c1_at P J (node_get T) ((i : ℕ) + 1) * grid_dx n) *
          c4_at P J (node_get T) ((i : ℕ) + 1) /
          c2_at P (node_get T) ((i : ℕ) + 1)
    else 0

/-- Right-hand side of one solver iteration (source lines 366-379):
`b[0] = Tc`, `b[n-1] = Th`, interior `b[i] = c5[i-1] * dx`. -/
def system_rhs {n : ℕ} (Th Tc : ℚ) (P : Props) (J : ℚ) (T : Fin n → ℚ) :
    Fin n → ℚ :=
  fun i =>
    if (i : ℕ) = n - 1 then Th
    else if (i : ℕ) = 0 then Tc
    else c5_at P J (node_get T) ((i : ℕ) - 1) * grid_dx n

/-- Physical clip of the newly solved field (source line 391):
`np.clip(T_new, min(Tc, Th)*0.95, max(Tc, Th)*1.1)`. -/
def field_clip (Tc Th : ℚ) (v : ℚ) : ℚ :=
  min (max v (min Tc Th * 0.95)) (max Tc Th * 1.1)

/-- Convergence test of one iteration (source lines 394-401):
`np.max(np.abs(T_new - T)) < 0.01`, stated as the equivalent pointwise
bound. -/
def iter_converged {n : ℕ} (Tnew Told : Fin n → ℚ) : Bool :=
  decide (∀ i, |Tnew i - Told i| < 0.01)

/-- One-or-more iterations of the solver loop (source lines 345-408),
recursing on the remaining iteration budget. Returns the final field
together with the number of iterations actually executed. The branches
mirror the source exactly: a singular solve substitutes the linear ramp
and breaks; a solution rejected by the float-validity test `isBad`
(the `np.isnan`/`np.isinf` check of line 386) is replaced by the linear
ramp, after which the clip, the convergence test and the loop all
continue as for an accepted solution. -/
def solve_loop (Th Tc : ℚ) (n : ℕ) (P : Props) (J : ℚ)
    (isBad : (Fin n → ℚ) → Bool) : ℕ → (Fin n → ℚ) → (Fin n → ℚ) × ℕ
  | 0, T => (T, 0)
  | Nat.succ fuel, T =>
    match npSolve (system_matrix P J T) (system_rhs Th Tc P J T) with
    | none => (lin_ramp Tc Th n, 1)
    | some sol =>
      let T1 := if isBad sol then lin_ramp Tc Th n else sol
      let T2 := fun i => field_clip Tc Th (T1 i)
      if iter_converged T2 T then (T2, 1)
      else ((solve_loop Th Tc n P J isBad fuel T2).1,
            (solve_loop Th Tc n P J isBad fuel T2).2 + 1)

/-- Core of `calculate_temperature_distribution` after the unit
conversion: positions array and final temperature field, starting from
the linear ramp. -/
def tempDist_withJ (Th Tc : ℚ) (n : ℕ) (P : Props) (J : ℚ)
    (max_iter : ℕ) (isBad : (Fin n → ℚ) → Bool) :
    (Fin n → ℚ) × (Fin n → ℚ) :=
  (node_positions n, (solve_loop Th Tc n P J isBad max_iter (lin_ramp Tc Th n)).1)

/-- Embedding of `ThermoelectricCalculator.calculate_temperature_distribution`
(source lines 320-422): convert the current density with the solver's
factor 100, then run the iteration loop from the linear initial ramp. -/
def calculate_temperature_distribution (Th Tc : ℚ) (n : ℕ) (P : Props)
    (current_density : ℚ) (max_iter : ℕ) (isBad : (Fin n → ℚ) → Bool) :
    (Fin n → ℚ) × (Fin n → ℚ) :=
  tempDist_withJ Th Tc n P (solver_current_to_SI current_density) max_iter isBad

/-- List access `T[m]` with junk default, for the list-borne fields of the
efficiency calculator. -/
def list_at (T : List ℚ) (m : ℕ) : ℚ := T.getD m 0

/-- Grid spacing of the efficiency calculator (source line 460):
`dx = (x[-1] - x[0]) / (n_points - 1)`. -/
def eff_dx (x : List ℚ) : ℚ :=
  (list_at x (x.length - 1) - list_at x 0) / ((x.length : ℚ) - 1)

/-- Substitute 20-node position ramp `np.linspace(0, 1.0, 20)` used when
no valid field is supplied (source lines 454-455). -/
def ramp_positions (n : ℕ) : List ℚ :=
  (List.range n).map fun i => (i : ℚ) / ((n : ℚ) - 1)

/-- Substitute 20-node temperature ramp `np.linspace(Tc, Th, 20)` used
when no valid field is supplied (source line 456). -/
def ramp_values (Tc Th : ℚ) (n : ℕ) : List ℚ :=
  (List.range n).map fun i => Tc + (Th - Tc) * (i : ℚ) / ((n : ℚ) - 1)

/-- Interior heat-flux recurrence of the efficiency calculator (source
line 486): `q[k] = ((1/dx - c1[k]) * T[k] - T[k-1]/dx) / c2[k]`. -/
def q_inner (P : Props) (J dx : ℚ) (Tf : ℕ → ℚ) (k : ℕ) : ℚ :=
  ((1 / dx - c1_at P J Tf k) * Tf k - Tf (k - 1) / dx) / c2_at P Tf k

/-- Reconstructed heat flux of the efficiency calculator (source lines
484-488): the interior recurrence for `k ≥ 1` and the boundary correction
`q[0] = (1 - c4[1]*dx) * q[1] - c3[1]*dx*T[1] - c5[1]*dx`. -/
def heat_flux (P : Props) (J dx : ℚ) (Tf : ℕ → ℚ) (k : ℕ) : ℚ :=
  if k = 0 then
    (1 - c4_at P J Tf 1 * dx) * q_inner P J dx Tf 1 -
      c3_at P J Tf 1 * dx * Tf 1 - c5_at P J Tf 1 * dx
  else q_inner P J dx Tf k

/-- Trapezoidal Seebeck integral (source lines 491-501): the accumulation
loop `for m in range(1, n_points)` adding
`(seebeck[m]+seebeck[m-1])/2 * (T[m]-T[m-1])`, written as a recursion on
the node count (the `k = 0` guard skips the absent `m = 0` term). -/
def cumulative_seebeck (P : Props) (Tf : ℕ → ℚ) : ℕ → ℚ
  | 0 => 0
  | k + 1 =>
    cumulative_seebeck P Tf k +
      (if k = 0 then 0
       else (P.seebeck (clip_temperature (Tf k)) +
          P.seebeck (clip_temperature (Tf (k - 1)))) / 2 * (Tf k - Tf (k - 1)))

/-- Trapezoidal resistivity integral (source lines 492-502): the same
accumulation loop adding `(resistivity[m]+resistivity[m-1])/2 * dx`. -/
def cumulative_resistivity (P : Props) (dx : ℚ) (Tf : ℕ → ℚ) : ℕ → ℚ
  | 0 => 0
  | k + 1 =>
    cumulative_resistivity P dx Tf k +
      (if k = 0 then 0
       else (P.resistivity (clip_temperature (Tf k)) +
          P.resistivity (clip_temperature (Tf (k - 1)))) / 2 * dx)

/-- Output power density `power = J * (cumulative_seebeck + J *
cumulative_resistivity)` (source line 523). -/
def power_density (P : Props) (J : ℚ) (n : ℕ) (dx : ℚ) (Tf : ℕ → ℚ) : ℚ :=
  J * (cumulative_seebeck P Tf n + J * cumulative_resistivity P dx Tf n)

/-- Raw efficiency before clamping (source line 506):
`J * (cumulative_seebeck + J*cumulative_resistivity) / q[n-1] * 100`. -/
def eff_raw (P : Props) (J : ℚ) (n : ℕ) (dx : ℚ) (Tf : ℕ → ℚ) : ℚ :=
  power_density P J n dx Tf / heat_flux P J dx Tf (n - 1) * 100

/-- Clamped efficiency of the calculator (source lines 504-520): zero when
the boundary heat flux vanishes; otherwise the raw value, floored at 0,
and replaced by `carnot * 0.9` only when it exceeds the full Carnot
efficiency `carnot = (Th - Tc) / Th * 100`. -/
def eff_value (Th Tc : ℚ) (P : Props) (J : ℚ) (n : ℕ) (dx : ℚ)
    (Tf : ℕ → ℚ) : ℚ :=
  if heat_flux P J dx Tf (n - 1) ≠ 0 then
    (if (if eff_raw P J n dx Tf < 0 then 0 else eff_raw P J n dx Tf) >
          (Th - Tc) / Th * 100 then
        (Th - Tc) / Th * 100 * 0.9
      else (if eff_raw P J n dx Tf < 0 then 0 else eff_raw P J n dx Tf))
  else 0

/-- Efficiency and power of one field (source lines 458-526), after the
boundary-temperature validation and the field substitution. -/
def eff_core (Th Tc : ℚ) (P : Props) (J : ℚ) (x T : List ℚ) : ℚ × ℚ :=
  (eff_value Th Tc P J x.length (eff_dx x) (list_at T),
   power_density P J x.length (eff_dx x) (list_at T))

/-- Embedding of `ThermoelectricCalculator.calculate_efficiency` (source
lines 424-532): return `(0, 0)` when `Th ≤ Tc`; substitute the 20-node
linear ramp when the supplied position array has fewer than 3 nodes;
convert the current density with the factor 10000; then compute the
clamped efficiency and the power density. -/
def calculate_efficiency (Th Tc : ℚ) (P : Props) (current_density : ℚ)
    (x T : List ℚ) : ℚ × ℚ :=
  if Th ≤ Tc then (0, 0)
  else if x.length < 3 then
    eff_core Th Tc P (efficiency_current_to_SI current_density)
      (ramp_positions 20) (ramp_values Tc Th 20)
  else eff_core Th Tc P (efficiency_current_to_SI current_density) x T

/-- Embedding of the per-current aggregation step of
`ThermoelectricApp.calculate_device_performance` (source lines 1575-1602):
leg currents `j_p = -j`, `j_n = j / r`, area fractions `1/(1+r)` and
`r/(1+r)`, area-weighted total power, and area-weighted average of the two
fractional branch efficiencies when both are positive, else 0. Returns
`(total_power, total_efficiency)`. -/
def device_point (Th Tc : ℚ) (Pp Pn : Props) (xp Tp xn Tn : List ℚ)
    (r j : ℚ) : ℚ × ℚ :=
  (((calculate_efficiency Th Tc Pp (-j) xp Tp).2 * (1 / (1 + r)) +
      (calculate_efficiency Th Tc Pn (j / r) xn Tn).2 * (r / (1 + r))),
   (if (calculate_efficiency Th Tc Pp (-j) xp Tp).1 / 100 > 0 ∧
        (calculate_efficiency Th Tc Pn (j / r) xn Tn).1 / 100 > 0 then
      ((calculate_efficiency Th Tc Pp (-j) xp Tp).1 / 100 * (1 / (1 + r)) +
          (calculate_efficiency Th Tc Pn (j / r) xn Tn).1 / 100 *
            (r / (1 + r))) / (1 / (1 + r) + r / (1 + r))
    else 0))

/-- Total order on table rows by temperature, for the insertion sort. -/
instance : IsTotal TableRow (fun a b => a.1 ≤ b.1) :=
  ⟨fun a b => le_total a.1 b.1⟩

/-- Transitivity of the row order by temperature. -/
instance : IsTrans TableRow (fun a b => a.1 ≤ b.1) :=
  ⟨fun _ _ _ h1 h2 => le_trans h1 h2⟩

/-- Concrete material with constant Seebeck coefficient `-19/25000 V/K`
(that is `-760 μV/K`), zero resistivity and unit thermal conductivity. -/
def matC1 : Props :=
  create_interpolators [(300, -19/25000, 0, 1), (700, -19/25000, 0, 1)]

/-- Concrete material with constant Seebeck coefficient `1/10000 V/K`,
zero resistivity and unit thermal conductivity. -/
def matC10 : Props :=
  create_interpolators [(300, 1/10000, 0, 1), (700, 1/10000, 0, 1)]

/-- Concrete material with zero Seebeck coefficient, zero resistivity and
unit thermal conductivity. -/
def matZero : Props :=
  create_interpolators [(300, 0, 0, 1), (700, 0, 0, 1)]

/-- Concrete material whose Seebeck coefficient varies linearly from 0 at
300 K to `-1/25 V/K` at 500 K, with zero resistivity and unit thermal
conductivity; at current density 1 A/cm² its iteration matrix on the
3-node ramp from -100 K to 500 K is exactly singular. -/
def matC4 : Props :=
  create_interpolators [(300, 0, 0, 1), (500, -1/25, 0, 1)]

/-- Concrete 3-node mid-iteration temperature field, 80 K away from the
linear ramp between 300 K and 500 K at the middle node. -/
def tC2 : Fin 3 → ℚ :=
  fun i => if (i : ℕ) = 0 then 300 else if (i : ℕ) = 1 then 480 else 500

/-! ### Helper lemmas on the linear solve and the loop invariants -/

/-- A successful `npSolve` returns an actual solution of the system. -/
theorem npSolve_some_mulVec {n : ℕ} {A : Matrix (Fin n) (Fin n) ℚ}
    {b x : Fin n → ℚ} (h : npSolve A b = some x) : A.mulVec x = b := by
  unfold npSolve at h
  by_cases hd : A.det = 0
  · simp [hd] at h
  · simp only [hd, if_false, Option.some.injEq] at h
    have hx : x = A.det⁻¹ • A.cramer b := by
      funext i
      rw [← h]
      simp [Pi.smul_apply, smul_eq_mul]
    subst hx
    rw [Matrix.mulVec_smul, Matrix.mulVec_cramer, smul_smul,
      inv_mul_cancel₀ hd, one_smul]

/-- The solve fails exactly on a singular matrix. -/
theorem npSolve_eq_none_iff {n : ℕ} {A : Matrix (Fin n) (Fin n) ℚ}
    {b : Fin n → ℚ} : npSolve A b = none ↔ A.det = 0 := by
  unfold npSolve
  by_cases hd : A.det = 0 <;> simp [hd]

/-- Row 0 of the iteration matrix is the Dirichlet row pinning node 0. -/
theorem system_matrix_row_zero {n : ℕ} (P : Props) (J : ℚ) (T : Fin n → ℚ)
    (hn : 2 ≤ n) (h0 : 0 < n) (j : Fin n) :
    system_matrix P J T ⟨0, h0⟩ j = if j = (⟨0, h0⟩ : Fin n) then 1 else 0 := by
  have hne : (0 : ℕ) ≠ n - 1 := by omega
  simp only [system_matrix, Fin.ext_iff]
  simp [hne.symm ∘ Eq.symm, hne]

/-- Row `n-1` of the iteration matrix is the Dirichlet row pinning the
last node. -/
theorem system_matrix_row_last {n : ℕ} (P : Props) (J : ℚ) (T : Fin n → ℚ)
    (hl : n - 1 < n) (j : Fin n) :
    system_matrix P J T ⟨n - 1, hl⟩ j =
      if j = (⟨n - 1, hl⟩ : Fin n) then 1 else 0 := by
  simp [system_matrix]

/-- Any solution of the iteration system takes value `Tc` at node 0 and
`Th` at node `n-1` (the Dirichlet rows). -/
theorem solved_field_boundary {n : ℕ} (Th Tc : ℚ) (P : Props) (J : ℚ)
    (T x : Fin n → ℚ) (hn : 2 ≤ n)
    (hx : (system_matrix P J T).mulVec x = system_rhs Th Tc P J T) :
    x ⟨0, by omega⟩ = Tc ∧ x ⟨n - 1, by omega⟩ = Th := by
  have h0 : 0 < n := by omega
  have hl : n - 1 < n := by omega
  constructor
  · have := congrFun hx ⟨0, h0⟩
    rw [Matrix.mulVec, Matrix.dotProduct] at this
    have hsum : ∀ j, system_matrix P J T ⟨0, h0⟩ j * x j
        = if j = (⟨0, h0⟩ : Fin n) then x j else 0 := fun j => by
      rw [system_matrix_row_zero P J T hn h0 j, ite_mul, one_mul, zero_mul]
    rw [Finset.sum_congr rfl (fun j _ => hsum j),
      Finset.sum_ite_eq' Finset.univ (⟨0, h0⟩ : Fin n) x] at this
    simp only [Finset.mem_univ, if_true] at this
    rw [this]
    simp only [system_rhs]
    have hne : (0 : ℕ) ≠ n - 1 := by omega
    simp [hne]
  · have := congrFun hx ⟨n - 1, hl⟩
    rw [Matrix.mulVec, Matrix.dotProduct] at this
    have hsum : ∀ j, system_matrix P J T ⟨n - 1, hl⟩ j * x j
        = if j = (⟨n - 1, hl⟩ : Fin n) then x j else 0 := fun j => by
      rw [system_matrix_row_last P J T hl j, ite_mul, one_mul, zero_mul]
    rw [Finset.sum_congr rfl (fun j _ => hsum j),
      Finset.sum_ite_eq' Finset.univ (⟨n - 1, hl⟩ : Fin n) x] at this
    simp only [Finset.mem_univ, if_true] at this
    rw [this]
    simp [system_rhs]

/-- The linear ramp is pinned to `Tc` at node 0 and `Th` at node `n-1`. -/
theorem lin_ramp_boundary {n : ℕ} (Tc Th : ℚ) (hn : 2 ≤ n) :
    lin_ramp Tc Th n ⟨0, by omega⟩ = Tc ∧
      lin_ramp Tc Th n ⟨n - 1, by omega⟩ = Th := by
  have hd : ((n : ℚ) - 1) ≠ 0 := by
    have h2 : (2 : ℚ) ≤ (n : ℚ) := by exact_mod_cast hn
    linarith
  constructor
  · simp [lin_ramp]
  · have hcast : (((n - 1 : ℕ) : ℚ)) = (n : ℚ) - 1 := by
      have h1 : 1 ≤ n := by omega
      push_cast [h1]
      ring
    simp only [lin_ramp]
    rw [show (((⟨n - 1, by omega⟩ : Fin n) : ℕ) : ℚ) = ((n - 1 : ℕ) : ℚ) from rfl,
      hcast, mul_div_assoc, div_self hd, mul_one]
    ring

/-- Every value of the linear ramp lies between the two boundary
temperatures. -/
theorem lin_ramp_bounds {n : ℕ} (Tc Th : ℚ) (hn : 2 ≤ n) (i : Fin n) :
    min Tc Th ≤ lin_ramp Tc Th n i ∧ lin_ramp Tc Th n i ≤ max Tc Th := by
  have hd : (0 : ℚ) < (n : ℚ) - 1 := by
    have h2 : (2 : ℚ) ≤ (n : ℚ) := by exact_mod_cast hn
    linarith
  have h0 : (0 : ℚ) ≤ ((i : ℕ) : ℚ) := by positivity
  have h1 : ((i : ℕ) : ℚ) ≤ (n : ℚ) - 1 := by
    have hi : ((i : ℕ) : ℚ) + 1 ≤ (n : ℚ) := by
      exact_mod_cast Nat.succ_le_of_lt i.isLt
    linarith
  have ht0 : 0 ≤ ((i : ℕ) : ℚ) / ((n : ℚ) - 1) := div_nonneg h0 (le_of_lt hd)
  have ht1 : ((i : ℕ) : ℚ) / ((n : ℚ) - 1) ≤ 1 := (div_le_one hd).2 h1
  rw [lin_ramp, mul_div_assoc]
  generalize hgen : ((i : ℕ) : ℚ) / ((n : ℚ) - 1) = t at ht0 ht1
  rcases le_total Tc Th with h | h
  · rw [min_eq_left h, max_eq_right h]
    constructor <;> nlinarith
  · rw [min_eq_right h, max_eq_left h]
    constructor <;> nlinarith

/-- The physical clip always lands in the clip interval, whose bounds are
ordered for nonnegative boundary temperatures. -/
theorem field_clip_bounds (Tc Th v : ℚ) (hTc : 0 ≤ Tc) (hTh : 0 ≤ Th) :
    min Tc Th * 0.95 ≤ field_clip Tc Th v ∧
      field_clip Tc Th v ≤ max Tc Th * 1.1 := by
  have hmn : 0 ≤ min Tc Th := le_min hTc hTh
  have hmx : min Tc Th ≤ max Tc Th := min_le_max
  have hlohi : min Tc Th * 0.95 ≤ max Tc Th * 1.1 := by nlinarith
  unfold field_clip
  exact ⟨le_min (le_trans (by nlinarith) (le_max_right v _)) hlohi,
    min_le_right _ _⟩

/-- The physical clip is the identity inside the clip interval. -/
theorem field_clip_eq_of (Tc Th v : ℚ) (h1 : min Tc Th * 0.95 ≤ v)
    (h2 : v ≤ max Tc Th * 1.1) : field_clip Tc Th v = v := by
  unfold field_clip
  rw [max_eq_left h1, min_eq_left h2]

/-- The physical clip fixes a value lying between the two boundary
temperatures, when they are nonnegative. -/
theorem field_clip_fixes (Tc Th v : ℚ) (hTc : 0 ≤ Tc) (hTh : 0 ≤ Th)
    (h1 : min Tc Th ≤ v) (h2 : v ≤ max Tc Th) : field_clip Tc Th v = v := by
  have hmn : 0 ≤ min Tc Th := le_min hTc hTh
  have hmx : 0 ≤ max Tc Th := le_trans hmn min_le_max
  exact field_clip_eq_of Tc Th v (by nlinarith) (by nlinarith)

/-- Loop invariant: starting from a field inside the clip interval, every
exit of the iteration loop stays inside the clip interval. -/
theorem solve_loop_bounds {n : ℕ} (Th Tc : ℚ) (P : Props) (J : ℚ)
    (isBad : (Fin n → ℚ) → Bool) (hn : 2 ≤ n) (hTc : 0 ≤ Tc) (hTh : 0 ≤ Th) :
    ∀ (fuel : ℕ) (T : Fin n → ℚ),
      (∀ i, min Tc Th * 0.95 ≤ T i ∧ T i ≤ max Tc Th * 1.1) →
      ∀ i, min Tc Th * 0.95 ≤ (solve_loop Th Tc n P J isBad fuel T).1 i ∧
        (solve_loop Th Tc n P J isBad fuel T).1 i ≤ max Tc Th * 1.1 := by
  have hmn : 0 ≤ min Tc Th := le_min hTc hTh
  have hmx : 0 ≤ max Tc Th := le_trans hmn min_le_max
  have hlo : min Tc Th * 0.95 ≤ min Tc Th := by nlinarith
  have hhi : max Tc Th ≤ max Tc Th * 1.1 := by nlinarith
  have hramp : ∀ i : Fin n, min Tc Th * 0.95 ≤ lin_ramp Tc Th n i ∧
      lin_ramp Tc Th n i ≤ max Tc Th * 1.1 := by
    intro i
    have hb := lin_ramp_bounds Tc Th hn i
    exact ⟨le_trans hlo hb.1, le_trans hb.2 hhi⟩
  intro fuel
  induction fuel with
  | zero =>
    intro T hT i
    simpa [solve_loop] using hT i
  | succ k ih =>
    intro T hT i
    rw [solve_loop]
    cases hs : npSolve (system_matrix P J T) (system_rhs Th Tc P J T) with
    | none => exact hramp i
    | some sol =>
      simp only []
      set T1 := (if isBad sol = true then lin_ramp Tc Th n else sol) with hT1def
      by_cases hc : iter_converged (fun i => field_clip Tc Th (T1 i)) T = true
      · rw [if_pos hc]
        exact field_clip_bounds Tc Th _ hTc hTh
      · rw [if_neg hc]
        exact ih (fun j => field_clip Tc Th (T1 j))
          (fun j => field_clip_bounds Tc Th _ hTc hTh) i

/-- Loop invariant: starting from a field pinned to `Tc` and `Th` at the
two boundary nodes, every exit of the iteration loop stays pinned,
provided the boundary temperatures are nonnegative. -/
theorem solve_loop_boundary {n : ℕ} (Th Tc : ℚ) (P : Props) (J : ℚ)
    (isBad : (Fin n → ℚ) → Bool) (hn : 2 ≤ n) (hTc : 0 ≤ Tc) (hTh : 0 ≤ Th) :
    ∀ (fuel : ℕ) (T : Fin n → ℚ),
      T ⟨0, by omega⟩ = Tc → T ⟨n - 1, by omega⟩ = Th →
      (solve_loop Th Tc n P J isBad fuel T).1 ⟨0, by omega⟩ = Tc ∧
        (solve_loop Th Tc n P J isBad fuel T).1 ⟨n - 1, by omega⟩ = Th := by
  have hmn : 0 ≤ min Tc Th := le_min hTc hTh
  have hmx : 0 ≤ max Tc Th := le_trans hmn min_le_max
  have hfixTc : field_clip Tc Th Tc = Tc :=
    field_clip_fixes Tc Th Tc hTc hTh (min_le_left _ _) (le_max_left _ _)
  have hfixTh : field_clip Tc Th Th = Th :=
    field_clip_fixes Tc Th Th hTc hTh (min_le_right _ _) (le_max_right _ _)
  intro fuel
  induction fuel with
  | zero =>
    intro T h0 h1
    simpa [solve_loop] using ⟨h0, h1⟩
  | succ k ih =>
    intro T h0 h1
    rw [solve_loop]
    cases hs : npSolve (system_matrix P J T) (system_rhs Th Tc P J T) with
    | none => exact lin_ramp_boundary Tc Th hn
    | some sol =>
      simp only []
      set T1 := (if isBad sol = true then lin_ramp Tc Th n else sol) with hT1def
      have hT1 : (T1 ⟨0, by omega⟩ = Tc) ∧ (T1 ⟨n - 1, by omega⟩ = Th) := by
        rw [hT1def]
        by_cases hb : isBad sol
        · simpa [hb] using lin_ramp_boundary Tc Th hn
        · simpa [hb] using solved_field_boundary Th Tc P J T sol hn
            (npSolve_some_mulVec hs)
      by_cases hc : iter_converged (fun i => field_clip Tc Th (T1 i)) T = true
      · rw [if_pos hc]
        constructor
        · show field_clip Tc Th (T1 ⟨0, by omega⟩) = Tc
          rw [hT1.1, hfixTc]
        · show field_clip Tc Th (T1 ⟨n - 1, by omega⟩) = Th
          rw [hT1.2, hfixTh]
      · rw [if_neg hc]
        refine ih (fun j => field_clip Tc Th (T1 j)) ?_ ?_
        · show field_clip Tc Th (T1 ⟨0, by omega⟩) = Tc
          rw [hT1.1, hfixTc]
        · show field_clip Tc Th (T1 ⟨n - 1, by omega⟩) = Th
          rw [hT1.2, hfixTh]

/-! ### Helper lemmas on the efficiency calculator -/

/-- The clamped efficiency never exceeds the full Carnot value, as long as
that value is positive. -/
theorem eff_value_le_carnot (Th Tc : ℚ) (P : Props) (J : ℚ) (n : ℕ)
    (dx : ℚ) (Tf : ℕ → ℚ) (hc : 0 < (Th - Tc) / Th * 100) :
    eff_value Th Tc P J n dx Tf ≤ (Th - Tc) / Th * 100 := by
  unfold eff_value
  by_cases hq : heat_flux P J dx Tf (n - 1) ≠ 0
  · rw [if_pos hq]
    by_cases hr : eff_raw P J n dx Tf < 0
    · rw [if_pos hr]
      by_cases hg : (0 : ℚ) > (Th - Tc) / Th * 100
      · exact absurd hc (by linarith)
      · rw [if_neg hg]
        linarith
    · rw [if_neg hr]
      by_cases hg : eff_raw P J n dx Tf > (Th - Tc) / Th * 100
      · rw [if_pos hg]
        linarith
      · rw [if_neg hg]
        linarith [not_lt.1 hg]
  · rw [if_neg hq]
    linarith

/-! ### Claim C1 -/

/-- C1 (counterexample): with `Th = 500`, `Tc = 300` (Carnot limit 40%),
the constant material `matC1`, current density 1 A/cm² and the 3-node
field `(300, 400, 500)`, `calculate_efficiency` returns exactly 38%,
which exceeds 90% of the Carnot limit (36%): the cap at `0.9 × Carnot` is
applied only when the raw value exceeds the full Carnot limit, so values
between them pass through unchanged. -/
theorem C1_counterexample :
    (calculate_efficiency 500 300 matC1 1 [0, 1/2, 1] [300, 400, 500]).1 = 38 ∧
      ¬((calculate_efficiency 500 300 matC1 1 [0, 1/2, 1] [300, 400, 500]).1 ≤
        0.9 * ((500 - 300) / 500 * 100)) := by
  have h : (calculate_efficiency 500 300 matC1 1 [0, 1/2, 1] [300, 400, 500]).1
      = 38 := by
    norm_num [calculate_efficiency, eff_core, eff_value, eff_raw, power_density,
      cumulative_seebeck, cumulative_resistivity, heat_flux, q_inner, c1_at,
      c2_at, c3_at, c4_at, c5_at, clip_temperature, list_at, eff_dx,
      efficiency_current_to_SI, matC1, create_interpolators, sortRows,
      List.insertionSort, List.orderedInsert, interpLookup, interpSegments,
      min_def, max_def]
  refine ⟨h, ?_⟩
  rw [h]
  norm_num

/-- C1 (amended): for `Th > Tc` with `Th > 0`, the efficiency returned by
`calculate_efficiency` never exceeds the full Carnot limit
`(Th - Tc) / Th × 100`, for any material, current density and temperature
field; the `0.9 × Carnot` cap is only applied to raw values that exceed
the full Carnot limit. -/
theorem C1_amended_efficiency_le_full_carnot (Th Tc : ℚ) (P : Props)
    (j : ℚ) (x T : List ℚ) (h1 : Tc < Th) (h2 : 0 < Th) :
    (calculate_efficiency Th Tc P j x T).1 ≤ (Th - Tc) / Th * 100 := by
  have hc : 0 < (Th - Tc) / Th * 100 := by
    have := div_pos (sub_pos.2 h1) h2
    linarith
  unfold calculate_efficiency
  rw [if_neg (not_le.2 h1)]
  by_cases hx : x.length < 3
  · rw [if_pos hx]
    exact eff_value_le_carnot _ _ _ _ _ _ _ hc
  · rw [if_neg hx]
    exact eff_value_le_carnot _ _ _ _ _ _ _ hc

/-- C1 (witness): the amended bound instantiated at `Th = 500`,
`Tc = 300`, material `matC1`, current density 1. -/
theorem C1_witness :
    (300 : ℚ) < 500 ∧ (0 : ℚ) < 500 ∧
      (calculate_efficiency 500 300 matC1 1 [0, 1/2, 1] [300, 400, 500]).1 ≤
        (500 - 300) / 500 * 100 :=
  ⟨by norm_num, by norm_num,
    C1_amended_efficiency_le_full_carnot 500 300 matC1 1 [0, 1/2, 1]
      [300, 400, 500] (by norm_num) (by norm_num)⟩

/-! ### Claim C5 -/

/-- C5: for every material, current density and temperature field,
`calculate_efficiency` with `Th ≤ Tc` returns exactly `(0, 0)` (and, being
a total function, raises no error). -/
theorem C5_invalid_boundary_returns_zero (Th Tc : ℚ) (P : Props) (j : ℚ)
    (x T : List ℚ) (h : Th ≤ Tc) :
    calculate_efficiency Th Tc P j x T = (0, 0) := by
  unfold calculate_efficiency
  rw [if_pos h]

/-- C5 (witness): `Th = Tc = 300` returns `(0, 0)`. -/
theorem C5_witness :
    (300 : ℚ) ≤ 300 ∧
      calculate_efficiency 300 300 matZero 1 [] [] = (0, 0) :=
  ⟨le_refl _, C5_invalid_boundary_returns_zero 300 300 matZero 1 [] []
    (le_refl _)⟩

/-! ### Claim C9 -/

/-- C9: with `Th > Tc` and a well-formed field, whenever the reconstructed
heat flux at the last node is zero, the returned efficiency is exactly 0
(the division is guarded; no error is raised). -/
theorem C9_zero_heat_flux_zero_efficiency (Th Tc : ℚ) (P : Props) (j : ℚ)
    (x T : List ℚ) (h1 : Tc < Th) (hx : 3 ≤ x.length)
    (hq : heat_flux P (efficiency_current_to_SI j) (eff_dx x) (list_at T)
      (x.length - 1) = 0) :
    (calculate_efficiency Th Tc P j x T).1 = 0 := by
  unfold calculate_efficiency
  rw [if_neg (not_le.2 h1), if_neg (not_lt.2 hx)]
  simp only [eff_core, eff_value]
  simp [hq]

/-- C9 (witness): at `Th = 500`, `Tc = 300`, material `matZero`, current
density 1 and field `(300, 500, 500)` the boundary heat flux is zero and
the returned efficiency is zero. -/
theorem C9_witness :
    (300 : ℚ) < 500 ∧ 3 ≤ [(0 : ℚ), 1/2, 1].length ∧
      heat_flux matZero (efficiency_current_to_SI 1) (eff_dx [0, 1/2, 1])
        (list_at [300, 500, 500]) ([(0 : ℚ), 1/2, 1].length - 1) = 0 ∧
      (calculate_efficiency 500 300 matZero 1 [0, 1/2, 1] [300, 500, 500]).1
        = 0 := by
  have hq : heat_flux matZero (efficiency_current_to_SI 1)
      (eff_dx [0, 1/2, 1]) (list_at [300, 500, 500])
      ([(0 : ℚ), 1/2, 1].length - 1) = 0 := by
    norm_num [heat_flux, q_inner, c1_at, c2_at, c3_at, c4_at, c5_at,
      clip_temperature, list_at, eff_dx, efficiency_current_to_SI, matZero,
      create_interpolators, sortRows, List.insertionSort, List.orderedInsert,
      interpLookup, interpSegments, min_def, max_def]
  exact ⟨by norm_num, by norm_num, hq,
    C9_zero_heat_flux_zero_efficiency 500 300 matZero 1 [0, 1/2, 1]
      [300, 500, 500] (by norm_num) (by norm_num) hq⟩

/-! ### Claim C10 -/

/-- C10: with `Th > Tc` and a well-formed field, the returned power
density is exactly `J * (seebeck integral + J * resistivity integral)`
computed from the unclamped integrals, untouched by the efficiency
clamping and the zero-heat-flux guard; in particular, at `Th = 500`,
`Tc = 300`, material `matC10`, current density 1 and field
`(500, 300, 300)` the calculator returns efficiency 0 together with the
nonzero negative power `-200 W/m²`. -/
theorem C10_power_from_unclamped_integrals :
    (∀ (Th Tc : ℚ) (P : Props) (j : ℚ) (x T : List ℚ), Tc < Th →
      3 ≤ x.length →
      (calculate_efficiency Th Tc P j x T).2 =
        power_density P (efficiency_current_to_SI j) x.length (eff_dx x)
          (list_at T)) ∧
    calculate_efficiency 500 300 matC10 1 [0, 1/2, 1] [500, 300, 300]
      = (0, -200) := by
  constructor
  · intro Th Tc P j x T h1 hx
    unfold calculate_efficiency
    rw [if_neg (not_le.2 h1), if_neg (not_lt.2 hx)]
    rfl
  · norm_num [calculate_efficiency, eff_core, eff_value, eff_raw,
      power_density, cumulative_seebeck, cumulative_resistivity, heat_flux,
      q_inner, c1_at, c2_at, c3_at, c4_at, c5_at, clip_temperature, list_at,
      eff_dx, efficiency_current_to_SI, matC10, create_interpolators,
      sortRows, List.insertionSort, List.orderedInsert, interpLookup,
      interpSegments, min_def, max_def, Prod.ext_iff]

/-- C10 (witness): the power identity instantiated at `Th = 500`,
`Tc = 300`, material `matC10`, current density 1. -/
theorem C10_witness :
    (300 : ℚ) < 500 ∧ 3 ≤ [(0 : ℚ), 1/2, 1].length ∧
      (calculate_efficiency 500 300 matC10 1 [0, 1/2, 1] [500, 300, 300]).2 =
        power_density matC10 (efficiency_current_to_SI 1)
          [(0 : ℚ), 1/2, 1].length (eff_dx [0, 1/2, 1])
          (list_at [500, 300, 300]) :=
  ⟨by norm_num, by norm_num,
    C10_power_from_unclamped_integrals.1 500 300 matC10 1 [0, 1/2, 1]
      [500, 300, 300] (by norm_num) (by norm_num)⟩

/-! ### Claim C6 -/

/-- C6: the two entry points convert the same A/cm² current-density input
with different factors: the temperature solver multiplies it by exactly
100, the efficiency calculator by exactly 10000, and the two conversions
disagree on every nonzero input. -/
theorem C6_unit_conversion_mismatch :
    (∀ c : ℚ, solver_current_to_SI c = c * 100) ∧
    (∀ c : ℚ, efficiency_current_to_SI c = c * 10000) ∧
    (∀ (Th Tc : ℚ) (n : ℕ) (P : Props) (c : ℚ) (m : ℕ)
        (isBad : (Fin n → ℚ) → Bool),
      calculate_temperature_distribution Th Tc n P c m isBad =
        tempDist_withJ Th Tc n P (c * 100) m isBad) ∧
    (∀ (Th Tc : ℚ) (P : Props) (c : ℚ) (x T : List ℚ), ¬Th ≤ Tc →
        ¬x.length < 3 →
      calculate_efficiency Th Tc P c x T =
        eff_core Th Tc P (c * 10000) x T) ∧
    (∀ c : ℚ, c ≠ 0 → solver_current_to_SI c ≠ efficiency_current_to_SI c) := by
  refine ⟨fun c => rfl, fun c => rfl, fun Th Tc n P c m isBad => rfl, ?_, ?_⟩
  · intro Th Tc P c x T h1 h2
    unfold calculate_efficiency
    rw [if_neg h1, if_neg h2]
    rfl
  · intro c hc
    unfold solver_current_to_SI efficiency_current_to_SI
    intro heq
    apply hc
    linarith

/-- C6 (witness): the conversion factors at input 1 A/cm². -/
theorem C6_witness :
    solver_current_to_SI 1 = 100 ∧ efficiency_current_to_SI 1 = 10000 ∧
      solver_current_to_SI 1 ≠ efficiency_current_to_SI 1 :=
  ⟨(C6_unit_conversion_mismatch.1 1).trans (by norm_num),
   (C6_unit_conversion_mismatch.2.1 1).trans (by norm_num),
   C6_unit_conversion_mismatch.2.2.2.2 1 (by norm_num)⟩

/-! ### Claim C8 -/

/-- C8: for every area ratio `r > 0` and device current `j`, the
aggregation step uses leg currents `j_p = -j` and `j_n = j / r` and area
fractions `p_area = 1/(1+r)`, `n_area = r/(1+r)`; the total power is
`p_power * p_area + n_power * n_area` and the total efficiency is the
area-weighted average of the two branch efficiencies when both are
positive and 0 otherwise. -/
theorem C8_device_aggregation (Th Tc : ℚ) (Pp Pn : Props)
    (xp Tp xn Tn : List ℚ) (r j : ℚ) (hr : 0 < r) :
    device_point Th Tc Pp Pn xp Tp xn Tn r j =
      ((calculate_efficiency Th Tc Pp (-j) xp Tp).2 * (1 / (1 + r)) +
        (calculate_efficiency Th Tc Pn (j / r) xn Tn).2 * (r / (1 + r)),
       if 0 < (calculate_efficiency Th Tc Pp (-j) xp Tp).1 ∧
           0 < (calculate_efficiency Th Tc Pn (j / r) xn Tn).1 then
         ((calculate_efficiency Th Tc Pp (-j) xp Tp).1 / 100 * (1 / (1 + r)) +
           (calculate_efficiency Th Tc Pn (j / r) xn Tn).1 / 100 *
             (r / (1 + r))) / (1 / (1 + r) + r / (1 + r))
       else 0) := by
  unfold device_point
  have hiff : ∀ a : ℚ, (a / 100 > 0) ↔ (0 < a) := fun a => by
    constructor <;> intro h <;> linarith
  congr 1
  rw [if_congr (and_congr (hiff _) (hiff _)) rfl rfl]

/-- C8 (witness): the aggregation identity instantiated at area ratio 1
and device current 1. -/
theorem C8_witness :
    (0 : ℚ) < 1 ∧
      device_point 500 300 matZero matZero [] [] [] [] 1 1 =
        ((calculate_efficiency 500 300 matZero (-1) [] []).2 * (1 / (1 + 1)) +
          (calculate_efficiency 500 300 matZero (1 / 1) [] []).2 *
            (1 / (1 + 1)),
         if 0 < (calculate_efficiency 500 300 matZero (-1) [] []).1 ∧
             0 < (calculate_efficiency 500 300 matZero (1 / 1) [] []).1 then
           ((calculate_efficiency 500 300 matZero (-1) [] []).1 / 100 *
               (1 / (1 + 1)) +
             (calculate_efficiency 500 300 matZero (1 / 1) [] []).1 / 100 *
               (1 / (1 + 1))) / (1 / (1 + 1) + 1 / (1 + 1))
         else 0) :=
  ⟨by norm_num, C8_device_aggregation 500 300 matZero matZero [] [] [] [] 1 1
    (by norm_num)⟩

/-! ### Concrete evaluation helpers for the solver claims -/

/-- A two-sample table with equal values interpolates to a constant. -/
theorem interp_const_two (a b c t : ℚ) :
    interpLookup [(a, c), (b, c)] t = c := by
  simp only [interpLookup, interpSegments]
  split_ifs <;> ring

/-- The Seebeck interpolator of `matZero` is constantly zero. -/
theorem matZero_seebeck (t : ℚ) : matZero.seebeck t = 0 := by
  have h : matZero.seebeck = interpLookup [(300, 0), (700, 0)] := by
    norm_num [matZero, create_interpolators, sortRows, List.insertionSort,
      List.orderedInsert]
  rw [h, interp_const_two]

/-- The resistivity interpolator of `matZero` is constantly zero. -/
theorem matZero_resistivity (t : ℚ) : matZero.resistivity t = 0 := by
  have h : matZero.resistivity = interpLookup [(300, 0), (700, 0)] := by
    norm_num [matZero, create_interpolators, sortRows, List.insertionSort,
      List.orderedInsert]
  rw [h, interp_const_two]

/-- The thermal-conductivity interpolator of `matZero` is constantly one. -/
theorem matZero_thermal (t : ℚ) : matZero.thermal_cond t = 1 := by
  have h : matZero.thermal_cond = interpLookup [(300, 1), (700, 1)] := by
    norm_num [matZero, create_interpolators, sortRows, List.insertionSort,
      List.orderedInsert]
  rw [h, interp_const_two]

/-- On the constant material `matZero` at zero current the iteration
matrix is the same fixed tridiagonal matrix for every field. -/
theorem matZero_system_matrix (T : Fin 3 → ℚ) :
    system_matrix matZero 0 T =
      Matrix.of ![![1, 0, 0], ![-2, 4, -2], ![0, 0, 1]] := by
  funext i j
  fin_cases i <;> fin_cases j <;>
    simp [system_matrix, c1_at, c2_at, c3_at, c4_at, c5_at, grid_dx,
      matZero_seebeck, matZero_resistivity, matZero_thermal,
      Matrix.cons_val_zero, Matrix.cons_val_one, Matrix.head_cons] <;>
    norm_num

/-- On the constant material `matZero` at zero current the right-hand
side is `(Tc, 0, Th)` for every field. -/
theorem matZero_system_rhs (Th Tc : ℚ) (T : Fin 3 → ℚ) :
    system_rhs Th Tc matZero 0 T = ![Tc, 0, Th] := by
  funext i
  fin_cases i <;>
    simp [system_rhs, c5_at, matZero_resistivity,
      Matrix.cons_val_zero, Matrix.cons_val_one, Matrix.head_cons]

/-- Determinant of the fixed tridiagonal matrix of `matZero`. -/
theorem matZero_matrix_det :
    (Matrix.of ![![1, 0, 0], ![(-2 : ℚ), 4, -2], ![0, 0, 1]]).det = 4 := by
  norm_num [Matrix.det_fin_three]

/-- The solve on the constant material `matZero` at zero current always
succeeds, with the explicit Cramer solution. -/
theorem npSolve_matZero (Th Tc : ℚ) (T : Fin 3 → ℚ) :
    npSolve (system_matrix matZero 0 T) (system_rhs Th Tc matZero 0 T) =
      some (fun i =>
        (Matrix.of ![![1, 0, 0], ![(-2 : ℚ), 4, -2], ![0, 0, 1]]).det⁻¹ *
          (Matrix.of ![![1, 0, 0], ![(-2 : ℚ), 4, -2], ![0, 0, 1]]).cramer
            ![Tc, 0, Th] i) := by
  rw [matZero_system_matrix T, matZero_system_rhs Th Tc T]
  unfold npSolve
  rw [if_neg (by rw [matZero_matrix_det]; norm_num)]

/-- First Cramer component of the `matZero` system: `4 * Tc`. -/
theorem matZero_cramer_zero (Th Tc : ℚ) :
    (Matrix.of ![![1, 0, 0], ![(-2 : ℚ), 4, -2], ![0, 0, 1]]).cramer
      ![Tc, 0, Th] 0 = 4 * Tc := by
  rw [Matrix.cramer_apply]
  norm_num [Matrix.det_fin_three, Matrix.updateColumn_apply, Fin.ext_iff]
  ring

/-- One loop step with a successful solve and an accepted solution: the
field after the step is the clipped solution, whatever the convergence
test says. -/
theorem solve_loop_step_accepted {n : ℕ} (Th Tc : ℚ) (P : Props) (J : ℚ)
    (T sol : Fin n → ℚ)
    (hs : npSolve (system_matrix P J T) (system_rhs Th Tc P J T) = some sol) :
    (solve_loop Th Tc n P J (fun _ => false) 1 T).1 =
      fun i => field_clip Tc Th (sol i) := by
  rw [solve_loop, hs]
  simp only [Bool.false_eq_true, if_false]
  by_cases hc : iter_converged (fun i => field_clip Tc Th (sol i)) T = true
  · rw [if_pos hc]
  · rw [if_neg hc]
    simp [solve_loop]

/-- One loop step with a successful solve whose solution is rejected by
the float-validity test, when the substituted clipped ramp has not
converged: the loop replaces the field by the ramp and keeps iterating. -/
theorem solve_loop_step_bad {n : ℕ} (Th Tc : ℚ) (P : Props) (J : ℚ)
    (isBad : (Fin n → ℚ) → Bool) (fuel : ℕ) (T sol : Fin n → ℚ)
    (hs : npSolve (system_matrix P J T) (system_rhs Th Tc P J T) = some sol)
    (hb : isBad sol = true)
    (hnc : iter_converged (fun i => field_clip Tc Th (lin_ramp Tc Th n i)) T
      = false) :
    solve_loop Th Tc n P J isBad (fuel + 1) T =
      ((solve_loop Th Tc n P J isBad fuel
          (fun i => field_clip Tc Th (lin_ramp Tc Th n i))).1,
       (solve_loop Th Tc n P J isBad fuel
          (fun i => field_clip Tc Th (lin_ramp Tc Th n i))).2 + 1) := by
  rw [solve_loop, hs]
  simp only [hb, if_true]
  rw [if_neg (by rw [hnc]; simp)]

/-- One loop step with a successful solve whose solution is rejected by
the float-validity test, when the substituted clipped ramp passes the
convergence test: the loop returns the clipped ramp after this single
iteration. -/
theorem solve_loop_step_bad_conv {n : ℕ} (Th Tc : ℚ) (P : Props) (J : ℚ)
    (isBad : (Fin n → ℚ) → Bool) (fuel : ℕ) (T sol : Fin n → ℚ)
    (hs : npSolve (system_matrix P J T) (system_rhs Th Tc P J T) = some sol)
    (hb : isBad sol = true)
    (hcv : iter_converged (fun i => field_clip Tc Th (lin_ramp Tc Th n i)) T
      = true) :
    solve_loop Th Tc n P J isBad (fuel + 1) T =
      ((fun i => field_clip Tc Th (lin_ramp Tc Th n i)), 1) := by
  rw [solve_loop, hs]
  simp only [hb, if_true]
  rw [if_pos hcv]

/-- One loop step with a singular solve: the loop substitutes the raw
linear ramp and stops at once. -/
theorem solve_loop_step_singular {n : ℕ} (Th Tc : ℚ) (P : Props) (J : ℚ)
    (isBad : (Fin n → ℚ) → Bool) (fuel : ℕ) (T : Fin n → ℚ)
    (hs : npSolve (system_matrix P J T) (system_rhs Th Tc P J T) = none) :
    solve_loop Th Tc n P J isBad (fuel + 1) T = (lin_ramp Tc Th n, 1) := by
  rw [solve_loop, hs]

/-- On the material `matC4` at current density 1 A/cm² (internal J = 100),
the iteration matrix built from the 3-node ramp between -100 K and 500 K
has a vanishing central row. -/
theorem matC4_system_matrix :
    system_matrix matC4 (solver_current_to_SI 1) (lin_ramp (-100) 500 3) =
      Matrix.of ![![1, 0, 0], ![(-2 : ℚ), 0, -2], ![0, 0, 1]] := by
  funext i j
  fin_cases i <;> fin_cases j <;>
    norm_num [system_matrix, c1_at, c2_at, c3_at, c4_at, c5_at, grid_dx,
      node_get, lin_ramp, clip_temperature, matC4, create_interpolators,
      sortRows, List.insertionSort, List.orderedInsert, interpLookup,
      interpSegments, min_def, max_def, solver_current_to_SI, Fin.ext_iff,
      Matrix.cons_val_zero, Matrix.cons_val_one, Matrix.head_cons,
      Matrix.vecHead, Matrix.vecTail]

/-- The `matC4` iteration system on the ramp is exactly singular: the
solve raises `LinAlgError`. -/
theorem matC4_singular :
    npSolve (system_matrix matC4 (solver_current_to_SI 1)
        (lin_ramp (-100) 500 3))
      (system_rhs 500 (-100) matC4 (solver_current_to_SI 1)
        (lin_ramp (-100) 500 3)) = none := by
  rw [npSolve_eq_none_iff, matC4_system_matrix]
  norm_num [Matrix.det_fin_three, Matrix.vecHead, Matrix.vecTail]

/-! ### Claim C2 -/

/-- C2 (counterexample): on the constant material `matZero` at zero
current, starting from the mid-iteration field `tC2`, the solve succeeds
and the float-validity test (modelled by the constantly-true `isBad`)
rejects the solution; the field is replaced by the linear ramp, but the
loop does not stop: with budget 2 it performs a second iteration
(iteration count 2, not 1), because the substituted ramp differs from the
previous field by more than the 0.01 K convergence threshold. -/
theorem C2_counterexample :
    (npSolve (system_matrix matZero 0 tC2)
        (system_rhs 500 300 matZero 0 tC2)).isSome = true ∧
      (solve_loop 500 300 3 matZero 0 (fun _ => true) 2 tC2).2 = 2 := by
  have hnc : iter_converged
      (fun i => field_clip 300 500 (lin_ramp 300 500 3 i)) tC2 = false := by
    unfold iter_converged
    apply decide_eq_false
    intro hall
    have h1 := hall 1
    norm_num [field_clip, lin_ramp, tC2, min_def, max_def] at h1
  have hcv : iter_converged
      (fun i => field_clip 300 500 (lin_ramp 300 500 3 i))
      (fun i => field_clip 300 500 (lin_ramp 300 500 3 i)) = true := by
    unfold iter_converged
    apply decide_eq_true
    intro i
    norm_num
  constructor
  · rw [npSolve_matZero 500 300 tC2]
    rfl
  · have hstep1 : solve_loop 500 300 3 matZero 0 (fun _ => true) 2 tC2 =
        ((solve_loop 500 300 3 matZero 0 (fun _ => true) 1
            (fun i => field_clip 300 500 (lin_ramp 300 500 3 i))).1,
         (solve_loop 500 300 3 matZero 0 (fun _ => true) 1
            (fun i => field_clip 300 500 (lin_ramp 300 500 3 i))).2 + 1) := by
      have h := solve_loop_step_bad 500 300 matZero 0 (fun _ => true) 1 tC2 _
        (npSolve_matZero 500 300 tC2) rfl hnc
      simpa using h
    have hstep2 : solve_loop 500 300 3 matZero 0 (fun _ => true) 1
        (fun i => field_clip 300 500 (lin_ramp 300 500 3 i)) =
        ((fun i => field_clip 300 500 (lin_ramp 300 500 3 i)), 1) := by
      have h := solve_loop_step_bad_conv 500 300 matZero 0 (fun _ => true) 0
        (fun i => field_clip 300 500 (lin_ramp 300 500 3 i)) _
        (npSolve_matZero 500 300 _) rfl hcv
      simpa using h
    rw [hstep1, hstep2]

/-- C2 (amended): a singular solve substitutes the linear ramp and stops
iterating at once; a solve whose solution is rejected by the NaN/Inf
validity test substitutes the linear ramp for that iteration only — the
loop then stops exactly when the clipped ramp passes the 0.01 K
convergence test against the previous field, and otherwise keeps
iterating on the ramp. -/
theorem C2_amended_singular_stops_nonfinite_continues :
    ∀ (Th Tc : ℚ) (n : ℕ) (P : Props) (J : ℚ)
      (isBad : (Fin n → ℚ) → Bool) (fuel : ℕ) (T : Fin n → ℚ),
      (npSolve (system_matrix P J T) (system_rhs Th Tc P J T) = none →
        solve_loop Th Tc n P J isBad (fuel + 1) T = (lin_ramp Tc Th n, 1)) ∧
      (∀ sol, npSolve (system_matrix P J T) (system_rhs Th Tc P J T)
          = some sol → isBad sol = true →
        (iter_converged (fun i => field_clip Tc Th (lin_ramp Tc Th n i)) T
            = true →
          solve_loop Th Tc n P J isBad (fuel + 1) T =
            ((fun i => field_clip Tc Th (lin_ramp Tc Th n i)), 1)) ∧
        (iter_converged (fun i => field_clip Tc Th (lin_ramp Tc Th n i)) T
            = false →
          solve_loop Th Tc n P J isBad (fuel + 1) T =
            ((solve_loop Th Tc n P J isBad fuel
                (fun i => field_clip Tc Th (lin_ramp Tc Th n i))).1,
             (solve_loop Th Tc n P J isBad fuel
                (fun i => field_clip Tc Th (lin_ramp Tc Th n i))).2 + 1))) := by
  intro Th Tc n P J isBad fuel T
  exact ⟨fun hs => solve_loop_step_singular Th Tc P J isBad fuel T hs,
    fun sol hs hb =>
      ⟨fun hcv => solve_loop_step_bad_conv Th Tc P J isBad fuel T sol hs hb hcv,
       fun hnc => solve_loop_step_bad Th Tc P J isBad fuel T sol hs hb hnc⟩⟩

/-- C2 (witness): the singular branch instantiated on the singular
`matC4` system: ramp substituted, loop stopped after one iteration. -/
theorem C2_witness :
    npSolve (system_matrix matC4 (solver_current_to_SI 1)
        (lin_ramp (-100) 500 3))
      (system_rhs 500 (-100) matC4 (solver_current_to_SI 1)
        (lin_ramp (-100) 500 3)) = none ∧
      solve_loop 500 (-100) 3 matC4 (solver_current_to_SI 1) (fun _ => false)
        1 (lin_ramp (-100) 500 3) = (lin_ramp (-100) 500 3, 1) :=
  ⟨matC4_singular,
    (C2_amended_singular_stops_nonfinite_continues 500 (-100) 3 matC4
      (solver_current_to_SI 1) (fun _ => false) 0
      (lin_ramp (-100) 500 3)).1 matC4_singular⟩

/-! ### Claim C3 -/

/-- C3 (counterexample): with the negative boundary temperature
`Tc = -100` (and `Th = 500`, constant material `matZero`, zero current,
one iteration), the solved field is exactly the ramp, but the physical
clip to `[min(Tc,Th)*0.95, max(Tc,Th)*1.1] = [-95, 550]` moves the cold
boundary node from `-100` to `-95`: the returned field is not pinned to
`Tc` at node 0. -/
theorem C3_counterexample :
    (calculate_temperature_distribution 500 (-100) 3 matZero 0 1
        (fun _ => false)).2 0 = -95 ∧ ((-95 : ℚ) ≠ -100) := by
  constructor
  · show (tempDist_withJ 500 (-100) 3 matZero (solver_current_to_SI 0) 1
        (fun _ => false)).2 0 = -95
    have hJ : solver_current_to_SI 0 = 0 := by
      norm_num [solver_current_to_SI]
    rw [hJ]
    show (solve_loop 500 (-100) 3 matZero 0 (fun _ => false) 1
        (lin_ramp (-100) 500 3)).1 0 = -95
    rw [solve_loop_step_accepted 500 (-100) matZero 0 (lin_ramp (-100) 500 3)
      _ (npSolve_matZero 500 (-100) (lin_ramp (-100) 500 3))]
    simp only []
    rw [matZero_cramer_zero 500 (-100), matZero_matrix_det]
    norm_num [field_clip, min_def, max_def]
  · norm_num

/-- C3 (amended): for `N ≥ 3` and nonnegative boundary temperatures, the
solver returns the node-position array and a temperature field with
`T[0] = Tc` and `T[N-1] = Th` exactly, for every material, current
density, iteration budget and float-validity test, on every exit path. -/
theorem C3_amended_boundary_pinning (Th Tc : ℚ) (n : ℕ) (P : Props)
    (j : ℚ) (m : ℕ) (isBad : (Fin n → ℚ) → Bool) (hn : 3 ≤ n)
    (hTc : 0 ≤ Tc) (hTh : 0 ≤ Th) :
    (calculate_temperature_distribution Th Tc n P j m isBad).1 =
        node_positions n ∧
      (calculate_temperature_distribution Th Tc n P j m isBad).2
        ⟨0, by omega⟩ = Tc ∧
      (calculate_temperature_distribution Th Tc n P j m isBad).2
        ⟨n - 1, by omega⟩ = Th := by
  have hn2 : 2 ≤ n := by omega
  have hb := lin_ramp_boundary Tc Th hn2
  have hs := solve_loop_boundary Th Tc P (solver_current_to_SI j) isBad
    hn2 hTc hTh m (lin_ramp Tc Th n) hb.1 hb.2
  exact ⟨rfl, hs.1, hs.2⟩

/-- C3 (witness): boundary pinning instantiated at `Th = 500`,
`Tc = 300`, `N = 3`, material `matZero`, current density 1, budget 5. -/
theorem C3_witness :
    (3 ≤ 3 ∧ (0 : ℚ) ≤ 300 ∧ (0 : ℚ) ≤ 500) ∧
      (calculate_temperature_distribution 500 300 3 matZero 1 5
          (fun _ => false)).2 ⟨0, by omega⟩ = 300 ∧
      (calculate_temperature_distribution 500 300 3 matZero 1 5
          (fun _ => false)).2 ⟨3 - 1, by omega⟩ = 500 := by
  have h := C3_amended_boundary_pinning 500 300 3 matZero 1 5
    (fun _ => false) (by norm_num) (by norm_num) (by norm_num)
  exact ⟨⟨by norm_num, by norm_num, by norm_num⟩, h.2.1, h.2.2⟩

/-! ### Claim C4 -/

/-- C4 (counterexample): with the negative boundary temperature
`Tc = -100` (and `Th = 500`, material `matC4`, current density 1), the
first iteration matrix is exactly singular, the solver falls back to the
raw linear ramp, and the returned value `-100` at node 0 lies outside
`[min(Tc,Th)*0.95, max(Tc,Th)*1.1] = [-95, 550]`. -/
theorem C4_counterexample :
    (calculate_temperature_distribution 500 (-100) 3 matC4 1 1
        (fun _ => false)).2 0 = -100 ∧
      ¬(min (-100 : ℚ) 500 * 0.95 ≤
        (calculate_temperature_distribution 500 (-100) 3 matC4 1 1
          (fun _ => false)).2 0) := by
  have h : (calculate_temperature_distribution 500 (-100) 3 matC4 1 1
      (fun _ => false)).2 0 = -100 := by
    show (solve_loop 500 (-100) 3 matC4 (solver_current_to_SI 1)
        (fun _ => false) 1 (lin_ramp (-100) 500 3)).1 0 = -100
    have hstep := solve_loop_step_singular 500 (-100) matC4
      (solver_current_to_SI 1) (fun _ => false) 0 (lin_ramp (-100) 500 3)
      matC4_singular
    rw [show (1 : ℕ) = 0 + 1 from rfl, hstep]
    norm_num [lin_ramp]
  refine ⟨h, ?_⟩
  rw [h]
  norm_num [min_def]

/-- C4 (amended): for `N ≥ 3` and nonnegative boundary temperatures,
every value of the returned temperature field lies within
`[min(Tc,Th)*0.95, max(Tc,Th)*1.1]`, for every material, current density,
iteration budget and float-validity test. -/
theorem C4_amended_field_in_clip_range (Th Tc : ℚ) (n : ℕ) (P : Props)
    (j : ℚ) (m : ℕ) (isBad : (Fin n → ℚ) → Bool) (hn : 3 ≤ n)
    (hTc : 0 ≤ Tc) (hTh : 0 ≤ Th) (i : Fin n) :
    min Tc Th * 0.95 ≤
        (calculate_temperature_distribution Th Tc n P j m isBad).2 i ∧
      (calculate_temperature_distribution Th Tc n P j m isBad).2 i ≤
        max Tc Th * 1.1 := by
  have hn2 : 2 ≤ n := by omega
  have hmn : 0 ≤ min Tc Th := le_min hTc hTh
  have hmx : 0 ≤ max Tc Th := le_trans hmn min_le_max
  have hlo : min Tc Th * 0.95 ≤ min Tc Th := by nlinarith
  have hhi : max Tc Th ≤ max Tc Th * 1.1 := by nlinarith
  have hinit : ∀ i2 : Fin n, min Tc Th * 0.95 ≤ lin_ramp Tc Th n i2 ∧
      lin_ramp Tc Th n i2 ≤ max Tc Th * 1.1 := fun i2 => by
    have hbb := lin_ramp_bounds Tc Th hn2 i2
    exact ⟨le_trans hlo hbb.1, le_trans hbb.2 hhi⟩
  exact solve_loop_bounds Th Tc P (solver_current_to_SI j) isBad hn2 hTc
    hTh m (lin_ramp Tc Th n) hinit i

/-- C4 (witness): the clip-interval bound instantiated at `Th = 500`,
`Tc = 300`, `N = 3`, mid node: the field value lies within `[285, 550]`,
hence within the interval `[285, 575]` quoted by the specification. -/
theorem C4_witness :
    (3 ≤ 3 ∧ (0 : ℚ) ≤ 300 ∧ (0 : ℚ) ≤ 500) ∧
      min (300 : ℚ) 500 * 0.95 ≤
        (calculate_temperature_distribution 500 300 3 matZero 1 5
          (fun _ => false)).2 1 ∧
      (calculate_temperature_distribution 500 300 3 matZero 1 5
          (fun _ => false)).2 1 ≤ max (300 : ℚ) 500 * 1.1 := by
  have h := C4_amended_field_in_clip_range 500 300 3 matZero 1 5
    (fun _ => false) (by norm_num) (by norm_num) (by norm_num) 1
  exact ⟨⟨by norm_num, by norm_num, by norm_num⟩, h.1, h.2⟩

/-! ### Claim C7: interpolator boundary behavior -/

/-- Along a strictly key-increasing chain, the start key bounds the key
of the last element. -/
theorem chain_key_le_getLastD {α : Type} (key : α → ℚ) :
    ∀ (l : List α) (x : α),
      List.Chain (fun a b => key a < key b) x l →
      key x ≤ key (l.getLastD x) := by
  intro l
  induction l with
  | nil => intro x _; exact le_refl _
  | cons y l2 ih =>
    intro x hch
    rcases List.chain_cons.1 hch with ⟨hxy, hch2⟩
    rw [List.getLastD_cons]
    exact le_of_lt (lt_of_lt_of_le hxy (ih y hch2))

/-- Along a strictly key-increasing chain, the start key bounds every
member key. -/
theorem chain_key_head_le_mem {α : Type} (key : α → ℚ) :
    ∀ (l : List α) (x el : α),
      List.Chain (fun a b => key a < key b) x l → el ∈ x :: l →
      key x ≤ key el := by
  intro l
  induction l with
  | nil =>
    intro x el _ hm
    rw [List.mem_singleton] at hm
    rw [hm]
  | cons y l2 ih =>
    intro x el hch hm
    rcases List.chain_cons.1 hch with ⟨hxy, hch2⟩
    rcases List.mem_cons.1 hm with rfl | hm2
    · exact le_refl _
    · exact le_trans (le_of_lt hxy) (ih y el hch2 hm2)

/-- Along a strictly key-increasing chain, every member key is bounded by
the key of the last element. -/
theorem chain_key_mem_le_getLastD {α : Type} (key : α → ℚ) :
    ∀ (l : List α) (x el : α),
      List.Chain (fun a b => key a < key b) x l → el ∈ x :: l →
      key el ≤ key (l.getLastD x) := by
  intro l
  induction l with
  | nil =>
    intro x el _ hm
    rw [List.mem_singleton] at hm
    rw [hm]
    exact le_refl _
  | cons y l2 ih =>
    intro x el hch hm
    rcases List.chain_cons.1 hch with ⟨hxy, hch2⟩
    rw [List.getLastD_cons]
    rcases List.mem_cons.1 hm with rfl | hm2
    · exact le_trans (le_of_lt hxy) (chain_key_le_getLastD key l2 y hch2)
    · exact ih y el hch2 hm2

/-- The last element (with default head) is a member of the cons list. -/
theorem getLastD_mem_cons {α : Type} :
    ∀ (l : List α) (x : α), l.getLastD x ∈ x :: l := by
  intro l
  induction l with
  | nil => intro x; exact List.mem_singleton.2 rfl
  | cons y l2 ih =>
    intro x
    rw [List.getLastD_cons]
    have := ih y
    simp only [List.mem_cons] at this ⊢
    tauto

/-- `getLastD` commutes with `map`. -/
theorem map_getLastD {α β : Type} (f : α → β) :
    ∀ (l : List α) (x : α), (l.map f).getLastD (f x) = f (l.getLastD x) := by
  intro l
  induction l with
  | nil => intro x; rfl
  | cons y l2 ih =>
    intro x
    rw [List.map_cons, List.getLastD_cons, List.getLastD_cons]
    exact ih y

/-- A strictly key-increasing pairwise list yields a chain from its head. -/
theorem chain_of_pairwise_key {α : Type} (key : α → ℚ) :
    ∀ (l : List α) (a : α),
      List.Pairwise (fun x y => key x < key y) (a :: l) →
      List.Chain (fun x y => key x < key y) a l := by
  intro l
  induction l with
  | nil => intro a _; exact List.Chain.nil
  | cons b l2 ih =>
    intro a hp
    rcases List.pairwise_cons.1 hp with ⟨hab, hp2⟩
    exact List.Chain.cons (hab b (List.mem_cons_self b l2)) (ih b
      (List.pairwise_cons.2 ⟨fun y hy => (List.pairwise_cons.1 hp2).1 y hy,
        (List.pairwise_cons.1 hp2).2⟩))

/-- On a strictly key-sorted sample list, queries at or beyond the last
sample temperature return the last sample value. -/
theorem interpSegments_last :
    ∀ (rest : List (ℚ × ℚ)) (p : ℚ × ℚ) (t : ℚ),
      List.Chain (fun a b => a.1 < b.1) p rest →
      (rest.getLastD p).1 ≤ t →
      interpSegments p rest t = (rest.getLastD p).2 := by
  intro rest
  induction rest with
  | nil => intro p t _ _; rfl
  | cons q rest2 ih =>
    intro p t hch hle
    rcases List.chain_cons.1 hch with ⟨hpq, hch2⟩
    rw [List.getLastD_cons] at hle ⊢
    rw [interpSegments]
    by_cases hq : t ≤ q.1
    · have hql : q.1 ≤ (rest2.getLastD q).1 :=
        chain_key_le_getLastD Prod.fst rest2 q hch2
      have htq : t = q.1 := le_antisymm hq (le_trans hql hle)
      cases rest2 with
      | nil =>
        have hne : q.1 - p.1 ≠ 0 := sub_ne_zero.2 (ne_of_lt hpq).symm
        rw [if_pos hq, htq]
        show p.2 + (q.2 - p.2) * (q.1 - p.1) / (q.1 - p.1) = q.2
        rw [mul_div_assoc, div_self hne, mul_one]
        ring
      | cons r rest3 =>
        exfalso
        rcases List.chain_cons.1 hch2 with ⟨hqr, hch3⟩
        rw [List.getLastD_cons] at hle
        have hr : r.1 ≤ (rest3.getLastD r).1 :=
          chain_key_le_getLastD Prod.fst rest3 r hch3
        linarith
    · rw [if_neg hq]
      exact ih q t hch2 hle

/-- Queries at or below the first sample temperature return the first
sample value (flat clamp below). -/
theorem interpLookup_head (p : ℚ × ℚ) (rest : List (ℚ × ℚ)) (t : ℚ)
    (ht : t ≤ p.1) : interpLookup (p :: rest) t = p.2 := by
  rw [interpLookup, if_pos ht]

/-- Queries at or above the last sample temperature return the last
sample value (flat clamp above), on a strictly key-sorted sample list. -/
theorem interpLookup_last (p : ℚ × ℚ) (rest : List (ℚ × ℚ)) (t : ℚ)
    (hch : List.Chain (fun a b => a.1 < b.1) p rest)
    (hle : (rest.getLastD p).1 ≤ t) :
    interpLookup (p :: rest) t = (rest.getLastD p).2 := by
  rw [interpLookup]
  by_cases hp : t ≤ p.1
  · cases rest with
    | nil =>
      rw [if_pos hp]
      rfl
    | cons q rest2 =>
      exfalso
      rcases List.chain_cons.1 hch with ⟨hpq, hch2⟩
      rw [List.getLastD_cons] at hle
      have h2 : q.1 ≤ (rest2.getLastD q).1 :=
        chain_key_le_getLastD Prod.fst rest2 q hch2
      linarith
  · rw [if_neg hp]
    exact interpSegments_last rest p t hch hle

/-- Flat-clamp behavior of one interpolator component built by
`create_interpolators`: on a table with pairwise-distinct temperatures,
queries at or below the minimum sampled temperature return the
minimum-temperature sample's value, and queries at or above the maximum
return the maximum-temperature sample's value. -/
theorem interp_component_clamp (rows : List TableRow)
    (hnodup : (rows.map fun r => r.1).Nodup) (v : TableRow → ℚ)
    (rmin rmax : TableRow) (hminmem : rmin ∈ rows)
    (hmin : ∀ r ∈ rows, rmin.1 ≤ r.1) (hmaxmem : rmax ∈ rows)
    (hmax : ∀ r ∈ rows, r.1 ≤ rmax.1) (t : ℚ) :
    (t ≤ rmin.1 →
      interpLookup ((sortRows rows).map fun r => (r.1, v r)) t = v rmin) ∧
    (rmax.1 ≤ t →
      interpLookup ((sortRows rows).map fun r => (r.1, v r)) t = v rmax) := by
  have hperm : (sortRows rows).Perm rows := List.perm_insertionSort _ rows
  have hsorted : List.Pairwise (fun a b : TableRow => a.1 ≤ b.1)
      (sortRows rows) := List.sorted_insertionSort _ rows
  have hnodup_s : ((sortRows rows).map fun r => r.1).Nodup :=
    ((hperm.map fun r => r.1).nodup_iff).2 hnodup
  have hne : List.Pairwise (fun a b : TableRow => a.1 ≠ b.1) (sortRows rows) :=
    List.pairwise_map.1 hnodup_s
  have hlt : List.Pairwise (fun a b : TableRow => a.1 < b.1) (sortRows rows) :=
    (hsorted.and hne).imp fun h => lt_of_le_of_ne h.1 h.2
  cases hs : sortRows rows with
  | nil =>
    exfalso
    have hm : rmin ∈ sortRows rows := hperm.mem_iff.2 hminmem
    rw [hs] at hm
    exact absurd hm (List.not_mem_nil _)
  | cons hd tl =>
    rw [hs] at hperm hlt
    have hchain : List.Chain (fun a b : TableRow => a.1 < b.1) hd tl :=
      chain_of_pairwise_key Prod.fst tl hd hlt
    have hhd_rows : hd ∈ rows := hperm.subset (List.mem_cons_self hd tl)
    have hmin_s : rmin ∈ hd :: tl := hperm.mem_iff.2 hminmem
    have heqmin : rmin = hd :=
      List.inj_on_of_nodup_map hnodup hminmem hhd_rows
        (le_antisymm (hmin hd hhd_rows)
          (chain_key_head_le_mem Prod.fst tl hd rmin hchain hmin_s))
    have hlst_mem_s : tl.getLastD hd ∈ hd :: tl := getLastD_mem_cons tl hd
    have hlst_rows : tl.getLastD hd ∈ rows := hperm.subset hlst_mem_s
    have hmax_s : rmax ∈ hd :: tl := hperm.mem_iff.2 hmaxmem
    have heqmax : rmax = tl.getLastD hd :=
      List.inj_on_of_nodup_map hnodup hmaxmem hlst_rows
        (le_antisymm
          (chain_key_mem_le_getLastD Prod.fst tl hd rmax hchain hmax_s)
          (hmax (tl.getLastD hd) hlst_rows))
    have hm_pair : List.Pairwise (fun a b : ℚ × ℚ => a.1 < b.1)
        ((hd :: tl).map fun r => (r.1, v r)) := List.pairwise_map.2 hlt
    rw [List.map_cons] at hm_pair
    have hchm : List.Chain (fun a b : ℚ × ℚ => a.1 < b.1) (hd.1, v hd)
        (tl.map fun r => (r.1, v r)) :=
      chain_of_pairwise_key Prod.fst _ _ hm_pair
    have hlast_eq : (tl.map fun r => (r.1, v r)).getLastD (hd.1, v hd) =
        (fun r : TableRow => (r.1, v r)) (tl.getLastD hd) :=
      map_getLastD (fun r : TableRow => (r.1, v r)) tl hd
    constructor
    · intro ht
      rw [List.map_cons]
      rw [interpLookup_head (hd.1, v hd) _ t (by rw [heqmin] at ht; exact ht)]
      rw [heqmin]
    · intro ht
      rw [List.map_cons]
      rw [interpLookup_last (hd.1, v hd) _ t hchm
        (by rw [hlast_eq]; show (tl.getLastD hd).1 ≤ t;
            rw [← heqmax]; exact ht)]
      rw [hlast_eq, heqmax]

/-- C7: for every material table with pairwise-distinct sample
temperatures and each of the three properties, the interpolator built by
`create_interpolators` (which sorts the samples by temperature first)
returns, at the minimum or maximum sampled temperature, that sample's
value exactly; below the minimum (or above the maximum) it returns the
minimum (respectively maximum) sample's value — flat clamping, never a
failure. -/
theorem C7_interpolators_flat_clamp (rows : List TableRow)
    (hnodup : (rows.map fun r => r.1).Nodup) (rmin rmax : TableRow)
    (hminmem : rmin ∈ rows) (hmin : ∀ r ∈ rows, rmin.1 ≤ r.1)
    (hmaxmem : rmax ∈ rows) (hmax : ∀ r ∈ rows, r.1 ≤ rmax.1) (t : ℚ) :
    ((create_interpolators rows).seebeck rmin.1 = rmin.2.1 ∧
      (create_interpolators rows).resistivity rmin.1 = rmin.2.2.1 ∧
      (create_interpolators rows).thermal_cond rmin.1 = rmin.2.2.2) ∧
    ((create_interpolators rows).seebeck rmax.1 = rmax.2.1 ∧
      (create_interpolators rows).resistivity rmax.1 = rmax.2.2.1 ∧
      (create_interpolators rows).thermal_cond rmax.1 = rmax.2.2.2) ∧
    (t < rmin.1 →
      (create_interpolators rows).seebeck t = rmin.2.1 ∧
      (create_interpolators rows).resistivity t = rmin.2.2.1 ∧
      (create_interpolators rows).thermal_cond t = rmin.2.2.2) ∧
    (rmax.1 < t →
      (create_interpolators rows).seebeck t = rmax.2.1 ∧
      (create_interpolators rows).resistivity t = rmax.2.2.1 ∧
      (create_interpolators rows).thermal_cond t = rmax.2.2.2) := by
  have hS := fun t2 => interp_component_clamp rows hnodup (fun r => r.2.1)
    rmin rmax hminmem hmin hmaxmem hmax t2
  have hR := fun t2 => interp_component_clamp rows hnodup (fun r => r.2.2.1)
    rmin rmax hminmem hmin hmaxmem hmax t2
  have hK := fun t2 => interp_component_clamp rows hnodup (fun r => r.2.2.2)
    rmin rmax hminmem hmin hmaxmem hmax t2
  exact ⟨⟨(hS rmin.1).1 (le_refl _), (hR rmin.1).1 (le_refl _),
      (hK rmin.1).1 (le_refl _)⟩,
    ⟨(hS rmax.1).2 (le_refl _), (hR rmax.1).2 (le_refl _),
      (hK rmax.1).2 (le_refl _)⟩,
    fun hlt => ⟨(hS t).1 (le_of_lt hlt), (hR t).1 (le_of_lt hlt),
      (hK t).1 (le_of_lt hlt)⟩,
    fun hgt => ⟨(hS t).2 (le_of_lt hgt), (hR t).2 (le_of_lt hgt),
      (hK t).2 (le_of_lt hgt)⟩⟩

/-- C7 (witness): an out-of-order three-sample table; lookup at the
minimum (300 K) and maximum (500 K) sampled temperatures returns those
samples' values exactly, and lookups 50 K below / above the range clamp
flat to the boundary samples. -/
theorem C7_witness :
    (create_interpolators
        [(500, 7, 8, 9), (300, 1, 2, 3), (400, 4, 5, 6)]).seebeck 300 = 1 ∧
      (create_interpolators
        [(500, 7, 8, 9), (300, 1, 2, 3), (400, 4, 5, 6)]).thermal_cond 500
        = 9 ∧
      (create_interpolators
        [(500, 7, 8, 9), (300, 1, 2, 3), (400, 4, 5, 6)]).resistivity 250
        = 2 ∧
      (create_interpolators
        [(500, 7, 8, 9), (300, 1, 2, 3), (400, 4, 5, 6)]).seebeck 550 = 7 := by
  have h1 := C7_interpolators_flat_clamp
    [(500, 7, 8, 9), (300, 1, 2, 3), (400, 4, 5, 6)]
    (by norm_num) ((300 : ℚ), 1, 2, 3) ((500 : ℚ), 7, 8, 9)
    (by norm_num) (by intro r hr; fin_cases hr <;> norm_num)
    (by norm_num) (by intro r hr; fin_cases hr <;> norm_num) 250
  have h2 := C7_interpolators_flat_clamp
    [(500, 7, 8, 9), (300, 1, 2, 3), (400, 4, 5, 6)]
    (by norm_num) ((300 : ℚ), 1, 2, 3) ((500 : ℚ), 7, 8, 9)
    (by norm_num) (by intro r hr; fin_cases hr <;> norm_num)
    (by norm_num) (by intro r hr; fin_cases hr <;> norm_num) 550
  exact ⟨h1.1.1, h1.2.1.2.2, (h1.2.2.1 (by norm_num)).2.1,
    (h2.2.2.2 (by norm_num)).1⟩
